import Mathlib

/-!
Verification of the gitlab tool server core: the HTTP gateway result
normalization (`src/gitlab/api-client.ts`), the project-path normalizer and the
paginated collector (`src/gitlab/tools/glob.ts`), and the per-tool
post-processing of `read.ts`, `search.ts`, `list_directory.ts` and `glob.ts`.

The TypeScript source is embedded shallowly:

* JavaScript strings are modelled as Lean `String` / `List Char` (code points;
  the repository only manipulates them at code-point granularity).
* JavaScript array primitives (`slice`, `split`, `trim`, stable `sort`,
  map-with-index) are modelled by structural Lean functions mirroring their
  ECMAScript semantics.
* The network call inside the gateway is abstracted as a `FetchOutcome` value
  (the response, or the thrown value); everything the code does with that
  outcome is embedded verbatim.
* `JSON.parse` is abstracted as a caller-supplied `String → Option T`
  (a parser either succeeds with a value or fails).
* Fallible TypeScript functions (`throw`) are embedded with `Except`.
-/

namespace GitlabMcp

/-! ## JavaScript primitives -/

/-- ECMAScript `Array.prototype.slice(a, b)` / `String.prototype.slice(a, b)`:
negative indices count from the end, then the window is clamped to the list. -/
def jsSlice (l : List α) (a b : Int) : List α :=
  let len : Int := l.length
  let s : Int := if a < 0 then max (len + a) 0 else min a len
  let e : Int := if b < 0 then max (len + b) 0 else min b len
  (l.drop s.toNat).take (e - s).toNat

/-- ECMAScript one-argument `slice(a)`: everything from `a` to the end. -/
def jsSliceFrom (l : List α) (a : Int) : List α :=
  jsSlice l a l.length

/-- ECMAScript `String.prototype.split(sep)` for a single-character separator:
`"".split(c)` is `[""]`, a trailing separator yields a trailing `""`. -/
def jsSplit (sep : Char) : List Char → List (List Char)
  | [] => [[]]
  | c :: cs =>
    if c = sep then [] :: jsSplit sep cs
    else
      match jsSplit sep cs with
      | [] => [[c]]
      | l :: ls => (c :: l) :: ls

/-- ECMAScript `String.prototype.trim()`: strip leading and trailing
whitespace. -/
def jsTrim (l : List Char) : List Char :=
  ((l.dropWhile Char.isWhitespace).reverse.dropWhile Char.isWhitespace).reverse

/-- Node `Buffer.byteLength(s, 'utf8')`: total UTF-8 byte size of a string. -/
def utf8Len : List Char → Nat
  | [] => 0
  | c :: cs => c.utf8Size + utf8Len cs

/-! ## Gateway (`src/gitlab/api-client.ts`, `fetchFromGitLabAPI`)

The function builds a URL and headers, performs `fetch`, and normalizes the
outcome.  The claims under verification are about the normalization, so the
`fetch` call itself is abstracted as a `FetchOutcome`: either the HTTP
response that the platform returned (any status), or the value thrown at the
transport level. -/

/-- An HTTP response as seen by the gateway: status, status text, the
`content-type` header (absent is `none`), and the body read by
`response.text()`. -/
structure HttpResponse where
  status : Nat
  statusText : String
  contentType : Option String
  body : String
deriving DecidableEq

/-- A value thrown by `fetch`: an `Error` object (with `name` and `message`),
or any other thrown value, carried as its `String(error)` rendering. -/
inductive ThrownValue where
  | errObj (name message : String)
  | nonError (repr : String)
deriving DecidableEq

/-- Outcome of the abstracted `fetch` call. -/
inductive FetchOutcome where
  | success (r : HttpResponse)
  | thrown (e : ThrownValue)
deriving DecidableEq

/-- The `GitLabResponse<T>` record of `api-client.ts`. -/
structure GitLabResponse (T : Type) where
  ok : Bool
  status : Nat
  statusText : String
  text : Option String := none
  data : Option T := none
deriving DecidableEq

/-- ECMAScript substring containment (`String.prototype.includes`). -/
def containsSub (pat : List Char) : List Char → Bool
  | [] => pat.isEmpty
  | c :: cs => pat.isPrefixOf (c :: cs) || containsSub pat cs

/-- The gateway's `contentType?.includes('application/json')` test; a missing
`content-type` header gives `undefined`, which is falsy. -/
def isJsonContentType : Option String → Bool
  | none => false
  | some ct => containsSub "application/json".toList ct.data

/-- Embeds the response-normalization part of `fetchFromGitLabAPI`
(`src/gitlab/api-client.ts`, lines 50-89): on a response, `ok` is the
WHATWG-fetch `response.ok` (status 200-299), the body text is always kept,
and `data` is the parsed body only when the call succeeded, the response
declared a JSON content type and the body is non-empty (a parse failure
leaves `data` undefined); on a thrown `AbortError` the error is re-thrown;
on any other thrown value a synthetic `ok=false, status=0` result is built
from the thrown value's message. -/
def fetchFromGitLabAPI (T : Type) (parseJson : String → Option T) :
    FetchOutcome → Except ThrownValue (GitLabResponse T)
  | .success r =>
    let isJson := isJsonContentType r.contentType
    let ok := decide (200 ≤ r.status) && decide (r.status ≤ 299)
    let data := if ok && isJson && r.body != "" then parseJson r.body else none
    .ok { ok := ok, status := r.status, statusText := r.statusText,
          text := some r.body, data := data }
  | .thrown (.errObj name message) =>
    if name = "AbortError" then .error (.errObj name message)
    else .ok { ok := false, status := 0, statusText := message,
               text := some message, data := none }
  | .thrown (.nonError s) =>
    .ok { ok := false, status := 0, statusText := "Network error",
          text := some s, data := none }

/-! ## Project-path normalizer (`extractProjectPath`)

Duplicated verbatim in `read.ts`, `glob.ts`, `search.ts`,
`list_directory.ts`:
`project.replace(/\.git$/, '').replace(/^https?:\/\/[^/]+\//, '')`. -/

/-- Embeds `replace(/\.git$/, '')`: the anchored pattern matches exactly a
trailing `".git"`, so the replacement removes the last four characters when
the string ends in `".git"` and otherwise does nothing. -/
def stripDotGit (l : List Char) : List Char :=
  if ".git".toList.isSuffixOf l then l.take (l.length - 4) else l

/-- Scans for the first `'/'` and returns everything after it (the remainder
of the regex match `[^/]+\/` once the first character is known not to be a
slash). -/
def afterSlash : List Char → Option (List Char)
  | [] => none
  | c :: cs => if c = '/' then some cs else afterSlash cs

/-- Matches the regex fragment `[^/]+\/` at the front of the list: at least
one non-slash character followed by a slash; returns the remainder after the
slash, or `none` when the fragment does not match. -/
def stripHostSegment : List Char → Option (List Char)
  | [] => none
  | c :: cs => if c = '/' then none else afterSlash cs

/-- Embeds `replace(/^https?:\/\/[^/]+\//, '')`: strip a leading
`http://host/` or `https://host/` (host non-empty, slash-free); when the
anchored pattern does not match, the string is unchanged. -/
def stripSchemeHost (l : List Char) : List Char :=
  if "http://".toList.isPrefixOf l then
    match stripHostSegment (l.drop 7) with
    | some rest => rest
    | none => l
  else if "https://".toList.isPrefixOf l then
    match stripHostSegment (l.drop 8) with
    | some rest => rest
    | none => l
  else l

/-- Embeds `extractProjectPath` (`read.ts` lines 47-49, `glob.ts` lines
54-57): first the `.git`-suffix replacement, then the scheme-and-host
replacement. -/
def extractProjectPath (l : List Char) : List Char :=
  stripSchemeHost (stripDotGit l)

/-! ## Paginated collector (`src/gitlab/tools/glob.ts`, `globFiles`
lines 74-102) -/

/-- The `type` discriminator of a GitLab tree item. -/
inductive TreeItemType where
  | blob
  | tree
deriving DecidableEq

/-- The `GitLabTreeItem` interface of `glob.ts`. -/
structure GitLabTreeItem where
  path : String
  type : TreeItemType
  mode : String
  id : String
deriving DecidableEq

/-- The error message thrown on a first-page failure:
`Failed to fetch files: ${response.status} ${response.statusText || 'Unknown error'}`. -/
def failedFetchMessage (resp : GitLabResponse (List GitLabTreeItem)) : String :=
  "Failed to fetch files: " ++ toString resp.status ++ " " ++
    (if resp.statusText = "" then "Unknown error" else resp.statusText)

/-- Embeds the `while (hasMore)` pagination loop of `globFiles`: each
iteration fetches one page (the per-page network outcome is abstracted as
`fetchPage : Nat → GitLabResponse _`); a page with `ok` false or absent
`data` is fatal on page 1 and ends the loop on later pages; otherwise the
paths of the blob-type items are appended and the loop continues exactly when
the page has 100 items.  `fuel` bounds the number of iterations (the source
loop is unbounded; every theorem below instantiates `fuel` above the number
of pages consumed).  The second result component counts the `fetchPage`
calls made. -/
def globFetchLoop (fetchPage : Nat → GitLabResponse (List GitLabTreeItem)) :
    Nat → Nat → List String → Nat → Except String (List String × Nat)
  | 0, _, allFiles, calls => .ok (allFiles, calls)
  | fuel + 1, page, allFiles, calls =>
    let response := fetchPage page
    match response.data, response.ok with
    | some data, true =>
      let files := (data.filter fun item => item.type == TreeItemType.blob).map
        GitLabTreeItem.path
      if data.length = 100 then
        globFetchLoop fetchPage fuel (page + 1) (allFiles ++ files) (calls + 1)
      else .ok (allFiles ++ files, calls + 1)
    | _, _ =>
      if page = 1 then .error (failedFetchMessage (fetchPage page))
      else .ok (allFiles, calls + 1)

/-- Runs the pagination loop from its initial state: `page = 1`, no
accumulated files, no calls made. -/
def globCollect (fetchPage : Nat → GitLabResponse (List GitLabTreeItem))
    (fuel : Nat) : Except String (List String × Nat) :=
  globFetchLoop fetchPage fuel 1 [] 0

/-! ## Glob matching and the `globFiles` post-processing
(`src/gitlab/tools/glob.ts`, lines 104-114) -/

/-- Modelled from the spec: the repository delegates pattern matching to the
external `picomatch/posix` library, whose code is not part of this
repository.  The spec pins down the needed semantics as "standard POSIX-style
glob semantics: `*` matches within a segment, `**` matches across segments".
This function matches one glob segment against one path segment: `*` matches
any (possibly empty) run of characters — it consumes some suffix of the
remaining characters — and every other character matches itself. -/
def matchSegment : List Char → List Char → Bool
  | [], cs => cs.isEmpty
  | '*' :: ps, cs => cs.tails.any fun suffix => matchSegment ps suffix
  | p :: ps, cs =>
    match cs with
    | [] => false
    | c :: cs' => p == c && matchSegment ps cs'

/-- Modelled from the spec: matches a `/`-split glob pattern against a
`/`-split path; a `**` segment matches any (possibly empty) run of path
segments — it consumes some suffix of the remaining segments — and any other
pattern segment must match exactly one path segment. -/
def matchSegments : List (List Char) → List (List Char) → Bool
  | [], segs => segs.isEmpty
  | p :: ps, segs =>
    if p = "**".toList then
      segs.tails.any fun rest => matchSegments ps rest
    else
      match segs with
      | [] => false
      | seg :: segs' => matchSegment p seg && matchSegments ps segs'

/-- Modelled from the spec: the `isMatch` predicate produced by
`picomatch(filePattern)`, applied to a full relative path. -/
def globMatch (pat path : List Char) : Bool :=
  matchSegments (jsSplit '/' pat) (jsSplit '/' path)

/-- Embeds the client-side post-processing of `globFiles` (lines 104-114):
filter the collected paths by the glob pattern, then slice the matched set —
`limit ? matchedFiles.slice(offset, offset + limit) : matchedFiles.slice(offset)`
(a `limit` of `0` is falsy, selecting the one-argument slice) — then root
every result at `/{projectPath}/`. -/
def globPostProcess (projectPath : String) (filePattern : String)
    (limit offset : Int) (allFiles : List String) : List String :=
  let matchedFiles := allFiles.filter fun p => globMatch filePattern.toList p.toList
  let paginatedFiles :=
    if limit != 0 then jsSlice matchedFiles offset (offset + limit)
    else jsSliceFrom matchedFiles offset
  paginatedFiles.map fun path => "/" ++ projectPath ++ "/" ++ path

/-- Embeds `globFiles` end to end over the abstracted page source: run the
pagination loop, then the filter/slice/root post-processing. -/
def globFiles (project : String) (filePattern : String) (limit offset : Int)
    (fetchPage : Nat → GitLabResponse (List GitLabTreeItem)) (fuel : Nat) :
    Except String (List String) :=
  let projectPath := String.mk (extractProjectPath project.toList)
  match globCollect fetchPage fuel with
  | .error e => .error e
  | .ok (allFiles, _) =>
      .ok (globPostProcess projectPath filePattern limit offset allFiles)

/-! ## Read file (`src/gitlab/tools/read.ts`, `readFile` lines 98-122) -/

/-- The `startLine` of `readFile`: `Math.max(1, read_range[0])`, or `1` when
no range is given. -/
def readStartLine (read_range : Option (Int × Int)) : Int :=
  match read_range with
  | some r => max 1 r.1
  | none => 1

/-- The `endLine` of `readFile`: `Math.min(lines.length, read_range[1])`, or
`lines.length` when no range is given. -/
def readEndLine (lines : List (List Char)) (read_range : Option (Int × Int)) :
    Int :=
  match read_range with
  | some r => min (lines.length : Int) r.2
  | none => (lines.length : Int)

/-- The selected slice: `lines.slice(startLine - 1, endLine)`. -/
def readSelected (lines : List (List Char)) (read_range : Option (Int × Int)) :
    List (List Char) :=
  jsSlice lines (readStartLine read_range - 1) (readEndLine lines read_range)

/-- The size-exceeded message of `readFile`; `Math.round(contentSize / 1024)`
on naturals is `(contentSize + 512) / 1024` (round half up). -/
def tooLargeMessage (contentSize : Nat) (totalLines : Nat) : String :=
  "File is too large (" ++ toString ((contentSize + 512) / 1024) ++
    "KB). The file has " ++ toString totalLines ++
    " lines. Please retry with a smaller read_range parameter."

/-- Embeds `selectedLines.map((line, idx) => ` + "`${startLine + idx}: ${line}`" + `)`:
each selected line prefixed by its absolute line number and `": "`. -/
def numberLinesGo (startLine : Int) (idx : Nat) : List (List Char) → List String
  | [] => []
  | l :: ls =>
    (toString (startLine + (idx : Int)) ++ ": " ++ String.mk l) ::
      numberLinesGo startLine (idx + 1) ls

/-- The numbered selection, joined back with newlines. -/
def numberLines (startLine : Int) (selectedLines : List (List Char)) : String :=
  String.intercalate "\n" (numberLinesGo startLine 0 selectedLines)

/-- Embeds the post-fetch processing of `readFile` (lines 98-122) from the
split line list: clamp the optional range, slice, fail with the size message
when the selected slice exceeds 128 KiB of UTF-8, otherwise return the
numbered selection. -/
def readFileFromLines (lines : List (List Char))
    (read_range : Option (Int × Int)) : Except String String :=
  let selectedLines := readSelected lines read_range
  let contentSize := utf8Len (List.intercalate ['\n'] selectedLines)
  if 128 * 1024 < contentSize then
    .error (tooLargeMessage contentSize lines.length)
  else
    .ok (numberLines (readStartLine read_range) selectedLines)

/-- Embeds `readFile` from the raw file content: `content.split('\n')`, then
the range/size/numbering processing. -/
def readFile (content : List Char) (read_range : Option (Int × Int)) :
    Except String String :=
  readFileFromLines (jsSplit '\n' content) read_range

/-! ## Search (`src/gitlab/tools/search.ts`, `searchCode` lines 106-148) -/

/-- The `GitLabSearchItem` interface of `search.ts` (the match fragment
`data` is kept as a character list). -/
structure GitLabSearchItem where
  path : String
  basename : String
  ref : String
  startline : Nat
  project_id : Nat
  data : List Char
deriving DecidableEq

/-- The `SearchResult` record of `search.ts`. -/
structure SearchResult where
  file : String
  chunks : List String
deriving DecidableEq

/-- The `GitLabSearchResult` record of `search.ts`. -/
structure GitLabSearchResult where
  results : List SearchResult
  totalCount : Nat
deriving DecidableEq

/-- The truncation marker appended to over-long fragments. -/
def truncMarker : List Char := "... (truncated)".toList

/-- Embeds the fragment processing of `searchCode`: trim, and when the
trimmed fragment is longer than 2048 characters, keep its first 2048
characters and append the truncation marker. -/
def processFragment (d : List Char) : List Char :=
  let fragment := jsTrim d
  if 2048 < fragment.length then fragment.take 2048 ++ truncMarker
  else fragment

/-- Embeds one iteration of the grouping loop over the insertion-ordered
`fileMap` (a JavaScript `Map` iterates in insertion order, so it is modelled
as an association list): an unseen file is appended at the end with its (possibly
empty) chunk list, a seen file gets the chunk appended to its list. -/
def insertChunk : List SearchResult → String → Option (List Char) →
    List SearchResult
  | [], file, c => [⟨file, (c.map String.mk).toList⟩]
  | r :: rest, file, c =>
    if r.file = file then ⟨r.file, r.chunks ++ (c.map String.mk).toList⟩ :: rest
    else r :: insertChunk rest file c

/-- Embeds the post-response processing of `searchCode` (lines 106-148): an
empty page returns the empty result; otherwise every item registers its
absolute path `/{projectPath}/{item.path}` in the file map (in order of first
appearance) and, when its fragment is non-empty (`if (item.data)`), appends
the processed fragment as a chunk; `totalCount` is `data.length`, the raw
item count of the single page received. -/
def searchCodeProcess (projectPath : String) (data : List GitLabSearchItem) :
    GitLabSearchResult :=
  if data.length = 0 then ⟨[], 0⟩
  else
    let results := data.foldl
      (fun fileMap item =>
        insertChunk fileMap ("/" ++ projectPath ++ "/" ++ item.path)
          (if item.data.isEmpty then none else some (processFragment item.data)))
      []
    ⟨results, data.length⟩

/-! ## List directory (`src/gitlab/tools/list_directory.ts`, `listDirectory`
lines 75-89) -/

/-- The `GitLabTreeItem` interface of `list_directory.ts` (distinct from the
one in `glob.ts`: it has `name`, `path` and `type`). -/
structure DirTreeItem where
  name : String
  path : String
  type : TreeItemType
deriving DecidableEq

/-- Embeds the entry formatting: `item.type === 'tree' ? item.name + '/' : item.name`. -/
def formatEntry (item : DirTreeItem) : String :=
  if item.type == TreeItemType.tree then item.name ++ "/" else item.name

/-- Tests the `a.endsWith('/')` flag used by the sort comparator. -/
def isDirEntry (s : String) : Bool :=
  ['/'].isSuffixOf s.data

/-- Code-point lexicographic order on character lists; this models the
`localeCompare` tiebreak of the comparator (locale-aware collation agrees
with code-point order on the ASCII names exercised here). -/
def lexLE : List Char → List Char → Bool
  | [], _ => true
  | _ :: _, [] => false
  | a :: as, b :: bs => if a = b then lexLE as bs else decide (a < b)

/-- The sort comparator of `listDirectory` as a boolean "less or equal":
directories strictly before files, and `localeCompare` within a group
(`dirEntryLE a b` holds exactly when the comparator returns a value `≤ 0`
on `(a, b)`). -/
def dirEntryLE (a b : String) : Bool :=
  if isDirEntry a && !isDirEntry b then true
  else if !isDirEntry a && isDirEntry b then false
  else lexLE a.data b.data

/-- The comparator as a decidable relation, for `List.insertionSort`. -/
abbrev dirEntryRel (a b : String) : Prop := dirEntryLE a b = true

/-- Embeds the formatting and sort of `listDirectory` (lines 75-89).
`Array.prototype.sort` is stable and comparator-driven; it is modelled by
the stable `List.insertionSort` over the comparator's "less or equal"
relation. -/
def listDirectoryProcess (data : List DirTreeItem) : List String :=
  List.insertionSort dirEntryRel (data.map formatEntry)

/-! ## Concrete page sources for the pagination scenarios -/

/-- A blob-type tree item, used to populate fake pages. -/
def blobItem : GitLabTreeItem :=
  ⟨"f", .blob, "100644", "0a1b"⟩

/-- A successful tree page with `n` blob items. -/
def okTreePage (n : Nat) : GitLabResponse (List GitLabTreeItem) :=
  ⟨true, 200, "OK", none, some (List.replicate n blobItem)⟩

/-- A failed tree page (HTTP 500, no structured payload). -/
def errorTreePage : GitLabResponse (List GitLabTreeItem) :=
  ⟨false, 500, "Internal Server Error", none, none⟩

/-- Fake page source with page sizes `[100, 100, 37]`. -/
def pagesFullFullShort (page : Nat) : GitLabResponse (List GitLabTreeItem) :=
  if page ≤ 2 then okTreePage 100 else okTreePage 37

/-- Fake page source with pages `[100, 100]` and every later call failing. -/
def pagesFullFullFail (page : Nat) : GitLabResponse (List GitLabTreeItem) :=
  if page ≤ 2 then okTreePage 100 else errorTreePage

/-- Fake page source whose first (and every) call fails. -/
def pagesAllFail (_ : Nat) : GitLabResponse (List GitLabTreeItem) :=
  errorTreePage

/-! ## Helper lemmas -/

/-- Unfolds a successful `fetchFromGitLabAPI` response into its record. -/
theorem fetchFromGitLabAPI_success_eq (T : Type) (parseJson : String → Option T)
    (r : HttpResponse) :
    fetchFromGitLabAPI T parseJson (.success r) =
      .ok { ok := decide (200 ≤ r.status) && decide (r.status ≤ 299),
            status := r.status, statusText := r.statusText, text := some r.body,
            data := if (decide (200 ≤ r.status) && decide (r.status ≤ 299)) &&
                       isJsonContentType r.contentType && (r.body != "") then
                      parseJson r.body
                    else none } :=
  rfl

/-! ## C1 — the gateway never throws for HTTP- or network-level failure -/

/-- C1: for every path, options, and config, `fetchFromGitLabAPI` never raises
an error for an HTTP-level failure (non-2xx status) or a network-level
failure: a non-2xx response is returned as a result with `ok = false`
carrying the response's status and text; a transport-level exception that is
not a cancellation yields a synthesized result with `ok = false`, status `0`,
and the exception's message as both `statusText` and raw text; the sole
exception raised out of the function is a caller-initiated abort
(`AbortError`), re-raised unwrapped. -/
theorem gateway_error_normalization (T : Type) (parseJson : String → Option T) :
    (∀ outcome : FetchOutcome,
      (∃ resp, fetchFromGitLabAPI T parseJson outcome = .ok resp) ∨
        ∃ m, outcome = .thrown (.errObj "AbortError" m) ∧
          fetchFromGitLabAPI T parseJson outcome = .error (.errObj "AbortError" m)) ∧
    (∀ r : HttpResponse, ¬(200 ≤ r.status ∧ r.status ≤ 299) →
      fetchFromGitLabAPI T parseJson (.success r) =
        .ok { ok := false, status := r.status, statusText := r.statusText,
              text := some r.body, data := none }) ∧
    (∀ name message, name ≠ "AbortError" →
      fetchFromGitLabAPI T parseJson (.thrown (.errObj name message)) =
        .ok { ok := false, status := 0, statusText := message,
              text := some message, data := none }) ∧
    (∀ message,
      fetchFromGitLabAPI T parseJson (.thrown (.errObj "AbortError" message)) =
        .error (.errObj "AbortError" message)) := by
  refine ⟨?_, ?_, ?_, ?_⟩
  · intro outcome
    match outcome with
    | .success r => exact Or.inl ⟨_, fetchFromGitLabAPI_success_eq T parseJson r⟩
    | .thrown (.errObj name message) =>
      by_cases h : name = "AbortError"
      · subst h
        exact Or.inr ⟨message, rfl, by simp [fetchFromGitLabAPI]⟩
      · exact Or.inl ⟨_, by simp only [fetchFromGitLabAPI]; rw [if_neg h]⟩
    | .thrown (.nonError s) => exact Or.inl ⟨_, rfl⟩
  · intro r h
    have hok : (decide (200 ≤ r.status) && decide (r.status ≤ 299)) = false := by
      rcases Nat.lt_or_ge r.status 200 with h1 | h1
      · simp [Nat.not_le_of_lt h1]
      · have h2 : ¬ r.status ≤ 299 := fun h2 => h ⟨h1, h2⟩
        simp [h2]
    rw [fetchFromGitLabAPI_success_eq T parseJson r, hok]
    simp
  · intro name message h
    simp [fetchFromGitLabAPI, h]
  · intro message
    simp [fetchFromGitLabAPI]

/-- Witness for C1 at concrete inputs: a 404 response, a non-abort
`TypeError`, and an `AbortError`. -/
theorem gateway_error_normalization_witness :
    fetchFromGitLabAPI Nat (fun _ => none)
        (.success ⟨404, "Not Found", some "text/plain", "nope"⟩) =
      .ok { ok := false, status := 404, statusText := "Not Found",
            text := some "nope", data := none } ∧
    fetchFromGitLabAPI Nat (fun _ => none)
        (.thrown (.errObj "TypeError" "fetch failed")) =
      .ok { ok := false, status := 0, statusText := "fetch failed",
            text := some "fetch failed", data := none } ∧
    fetchFromGitLabAPI Nat (fun _ => none)
        (.thrown (.errObj "AbortError" "The operation was aborted.")) =
      .error (.errObj "AbortError" "The operation was aborted.") := by
  have h := gateway_error_normalization Nat (fun _ => none)
  exact ⟨h.2.1 ⟨404, "Not Found", some "text/plain", "nope"⟩ (by decide),
         h.2.2.1 "TypeError" "fetch failed" (by decide),
         h.2.2.2 "The operation was aborted."⟩

/-! ## C4 — the parsed payload is present only on a parsed JSON success -/

/-- C4: for every response produced by `fetchFromGitLabAPI`, the parsed
structured payload (`data`) is present only if `ok` is true, the response
declared a JSON content type, the body text is non-empty, and parsing
succeeded; in every other case `data` is absent while the raw body text is
still returned. -/
theorem gateway_parsed_payload_invariant (T : Type)
    (parseJson : String → Option T) :
    (∀ r : HttpResponse, ∃ resp,
      fetchFromGitLabAPI T parseJson (.success r) = .ok resp ∧
      resp.text = some r.body ∧
      (∀ v, resp.data = some v →
        resp.ok = true ∧ (200 ≤ r.status ∧ r.status ≤ 299) ∧
        isJsonContentType r.contentType = true ∧ r.body ≠ "" ∧
        parseJson r.body = some v) ∧
      ((¬(200 ≤ r.status ∧ r.status ≤ 299) ∨
          isJsonContentType r.contentType = false ∨ r.body = "" ∨
          parseJson r.body = none) →
        resp.data = none)) ∧
    (∀ e resp, fetchFromGitLabAPI T parseJson (.thrown e) = .ok resp →
      resp.data = none) := by
  constructor
  · intro r
    refine ⟨_, fetchFromGitLabAPI_success_eq T parseJson r, rfl, ?_, ?_⟩
    · intro v hv
      dsimp at hv
      split at hv
      · next hc =>
        rw [Bool.and_eq_true, Bool.and_eq_true] at hc
        obtain ⟨⟨hok, hj⟩, hb⟩ := hc
        rw [Bool.and_eq_true, decide_eq_true_eq, decide_eq_true_eq] at hok
        refine ⟨?_, hok, hj, ?_, hv⟩
        · dsimp
          rw [Bool.and_eq_true]
          exact ⟨by simp [hok.1], by simp [hok.2]⟩
        · simpa using hb
      · exact absurd hv (by simp)
    · intro hcase
      dsimp
      split
      · next hc =>
        rw [Bool.and_eq_true, Bool.and_eq_true] at hc
        obtain ⟨⟨hok, hj⟩, hb⟩ := hc
        rw [Bool.and_eq_true, decide_eq_true_eq, decide_eq_true_eq] at hok
        rcases hcase with h | h | h | h
        · exact absurd ⟨hok.1, hok.2⟩ h
        · rw [h] at hj; exact absurd hj (by simp)
        · rw [h] at hb; exact absurd hb (by simp)
        · exact h
      · rfl
  · intro e resp h
    cases e with
    | errObj name message =>
      by_cases hn : name = "AbortError"
      · subst hn
        simp [fetchFromGitLabAPI] at h
      · simp only [fetchFromGitLabAPI, hn, if_false, ite_false,
          Except.ok.injEq] at h
        subst h
        rfl
    | nonError s =>
      simp only [fetchFromGitLabAPI, Except.ok.injEq] at h
      subst h
      rfl

/-- Witness for C4 at a concrete input: a 404 response with a JSON content
type still carries its raw body, and its parsed payload is absent. -/
theorem gateway_parsed_payload_invariant_witness :
    fetchFromGitLabAPI Nat (fun _ => none)
        (.success ⟨404, "Not Found", some "application/json", "[]"⟩) =
      .ok { ok := false, status := 404, statusText := "Not Found",
            text := some "[]", data := none } ∧
    ¬(200 ≤ 404 ∧ 404 ≤ 299) := by
  obtain ⟨resp, heq, htext, -, hnone⟩ :=
    (gateway_parsed_payload_invariant Nat (fun _ => none)).1
      ⟨404, "Not Found", some "application/json", "[]"⟩
  have hd : resp.data = none := hnone (Or.inl (by decide))
  have hr : resp = { ok := false, status := 404, statusText := "Not Found",
                     text := some "[]", data := none } :=
    Except.ok.inj (heq.symm.trans rfl)
  rw [hr] at heq
  exact ⟨heq, by decide⟩

/-! ## C2 — pagination: short page stops, later-page failure degrades,
first-page failure raises -/

set_option maxRecDepth 8000 in
/-- C2: the paginated collection loop of `globFiles` starts at page 1,
appends every blob item from each successful page, and stops on a short page
or a failed page call; a first-page failure raises, a later-page failure
returns the items collected so far.  For page sizes `[100, 100, 37]` it
returns 237 items in exactly 3 calls; for `[100, 100]` with the third call
failing it returns 200 items without error; for a first-call failure it
raises. -/
theorem glob_pagination_policy :
    (∀ (fetchPage : Nat → GitLabResponse (List GitLabTreeItem)) (fuel : Nat),
      (fetchPage 1).ok = false →
        globCollect fetchPage (fuel + 1) =
          .error (failedFetchMessage (fetchPage 1))) ∧
    (∀ (fetchPage : Nat → GitLabResponse (List GitLabTreeItem)) (fuel : Nat),
      (fetchPage 1).data = none →
        globCollect fetchPage (fuel + 1) =
          .error (failedFetchMessage (fetchPage 1))) ∧
    globCollect pagesFullFullShort 10 = .ok (List.replicate 237 "f", 3) ∧
    globCollect pagesFullFullFail 10 = .ok (List.replicate 200 "f", 3) ∧
    globCollect pagesAllFail 10 =
      .error "Failed to fetch files: 500 Internal Server Error" := by
  refine ⟨?_, ?_, ?_, ?_, ?_⟩
  · intro fetchPage fuel h
    cases hd : (fetchPage 1).data with
    | none => simp [globCollect, globFetchLoop, hd, h]
    | some d => simp [globCollect, globFetchLoop, hd, h]
  · intro fetchPage fuel h
    cases ho : (fetchPage 1).ok with
    | false => simp [globCollect, globFetchLoop, h, ho]
    | true => simp [globCollect, globFetchLoop, h, ho]
  · rfl
  · rfl
  · rfl

/-- Witness for C2 at a concrete input: the all-failing page source fails on
its first page, so the collection raises the formatted error. -/
theorem glob_pagination_policy_witness :
    (pagesAllFail 1).ok = false ∧
    globCollect pagesAllFail 1 = .error (failedFetchMessage (pagesAllFail 1)) :=
  ⟨rfl, glob_pagination_policy.1 pagesAllFail 0 rfl⟩

/-! ## C3 — the project normalizer strips one suffix and one scheme+host
prefix, but is NOT idempotent on all strings -/

/-- Scanning for the first slash in `t ++ '/' :: rest` finds the slash after
`t` when `t` itself is slash-free. -/
theorem afterSlash_append_slash (t rest : List Char) (h : '/' ∉ t) :
    afterSlash (t ++ '/' :: rest) = some rest := by
  induction t with
  | nil => simp [afterSlash]
  | cons c cs ih =>
    have hc : c ≠ '/' := fun e => h (e ▸ List.mem_cons_self c cs)
    rw [List.cons_append]
    simp only [afterSlash, if_neg hc]
    exact ih fun hm => h (List.mem_cons_of_mem c hm)

/-- The regex fragment `[^/]+\/` consumes exactly `host ++ ['/']` when
`host` is non-empty and slash-free. -/
theorem stripHostSegment_append (host rest : List Char) (hne : host ≠ [])
    (hns : '/' ∉ host) :
    stripHostSegment (host ++ '/' :: rest) = some rest := by
  cases host with
  | nil => exact absurd rfl hne
  | cons c cs =>
    have hc : c ≠ '/' := fun e => hns (e ▸ List.mem_cons_self c cs)
    rw [List.cons_append]
    simp only [stripHostSegment, if_neg hc]
    exact afterSlash_append_slash cs rest fun hm => hns (List.mem_cons_of_mem c hm)

/-- C3 counterexample: the claim asserts idempotence for all strings, but a
second application of `extractProjectPath` strips `".git.git"` twice. -/
theorem extractProjectPath_not_idempotent :
    extractProjectPath ".git.git".toList = ".git".toList ∧
    extractProjectPath (extractProjectPath ".git.git".toList) = [] ∧
    ¬ ∀ p : List Char,
        extractProjectPath (extractProjectPath p) = extractProjectPath p :=
  ⟨by decide, by decide, fun h => absurd (h ".git.git".toList) (by decide)⟩

/-- C3 (amended): `extractProjectPath` strips exactly one trailing `".git"`
suffix if present and exactly one leading scheme-and-host prefix if present
(and leaves the string unchanged otherwise); it is idempotent on every input
whose once-normalized form neither ends in `".git"` nor starts with a
scheme-and-host prefix (a second application can strip again on the other
inputs, e.g. `".git.git"`). -/
theorem extractProjectPath_strips_once :
    (∀ l : List Char, stripDotGit (l ++ ".git".toList) = l) ∧
    (∀ l : List Char, ¬ (".git".toList <:+ l) → stripDotGit l = l) ∧
    (∀ host rest : List Char, host ≠ [] → '/' ∉ host →
      stripSchemeHost ("http://".toList ++ (host ++ '/' :: rest)) = rest) ∧
    (∀ host rest : List Char, host ≠ [] → '/' ∉ host →
      stripSchemeHost ("https://".toList ++ (host ++ '/' :: rest)) = rest) ∧
    (∀ l : List Char, "http://".toList.isPrefixOf l = false →
      "https://".toList.isPrefixOf l = false → stripSchemeHost l = l) ∧
    (∀ l : List Char,
      stripDotGit (extractProjectPath l) = extractProjectPath l →
      stripSchemeHost (extractProjectPath l) = extractProjectPath l →
      extractProjectPath (extractProjectPath l) = extractProjectPath l) := by
  refine ⟨?_, ?_, ?_, ?_, ?_, ?_⟩
  · intro l
    have hs : ".git".toList.isSuffixOf (l ++ ".git".toList) = true := by
      rw [List.isSuffixOf_iff_suffix]
      exact List.suffix_append l ".git".toList
    rw [stripDotGit, if_pos hs]
    exact List.take_left' (by simp)
  · intro l h
    rw [stripDotGit, if_neg]
    rw [List.isSuffixOf_iff_suffix]
    exact h
  · intro host rest hne hns
    have hp : "http://".toList.isPrefixOf
        ("http://".toList ++ (host ++ '/' :: rest)) = true := by
      rw [List.isPrefixOf_iff_prefix]
      exact List.prefix_append _ _
    rw [stripSchemeHost, if_pos hp, List.drop_left' (by rfl),
      stripHostSegment_append host rest hne hns]
  · intro host rest hne hns
    have hnp : "http://".toList.isPrefixOf
        ("https://".toList ++ (host ++ '/' :: rest)) = false := rfl
    have hp : "https://".toList.isPrefixOf
        ("https://".toList ++ (host ++ '/' :: rest)) = true := by
      rw [List.isPrefixOf_iff_prefix]
      exact List.prefix_append _ _
    rw [stripSchemeHost, if_neg (by rw [hnp]; exact Bool.false_ne_true),
      if_pos hp, List.drop_left' (by rfl),
      stripHostSegment_append host rest hne hns]
  · intro l h1 h2
    rw [stripSchemeHost, if_neg (by rw [h1]; exact Bool.false_ne_true),
      if_neg (by rw [h2]; exact Bool.false_ne_true)]
  · intro l h1 h2
    calc extractProjectPath (extractProjectPath l)
        = stripSchemeHost (stripDotGit (extractProjectPath l)) := rfl
      _ = stripSchemeHost (extractProjectPath l) := by rw [h1]
      _ = extractProjectPath l := h2

/-- Witness for C3 (amended) at concrete inputs: one suffix strip, one
prefix strip, and idempotence on a fully-normalizing URL input. -/
theorem extractProjectPath_strips_once_witness :
    stripDotGit ("ns/repo".toList ++ ".git".toList) = "ns/repo".toList ∧
    stripSchemeHost ("https://".toList ++ ("gitlab.com".toList ++ '/' ::
      "g/p".toList)) = "g/p".toList ∧
    extractProjectPath (extractProjectPath "https://gitlab.com/g/p.git".toList)
      = extractProjectPath "https://gitlab.com/g/p.git".toList := by
  have h := extractProjectPath_strips_once
  exact ⟨h.1 "ns/repo".toList,
         h.2.2.2.1 "gitlab.com".toList "g/p".toList (by decide) (by decide),
         h.2.2.2.2.2 "https://gitlab.com/g/p.git".toList (by decide) (by decide)⟩

/-! ## C5 — read-file range clamping and line numbering -/

/-- C5: `readFile` clamps the requested 1-based inclusive range `[start,
end]` to `[1, totalLines]` — the selection is a plain drop/take at the
clamped indices, the whole file when the range is absent — and on success
each selected line is prefixed with its absolute 1-based line number and a
separator, joined by newlines: `[0, 10000]` on a 5-line file yields lines 1
through 5, and `[3, 4]` yields exactly the two lines numbered `3:` and
`4:`. -/
theorem readFile_range_clamping :
    (∀ (lines : List (List Char)) (a b : Int), 0 ≤ b →
      readSelected lines (some (a, b)) =
        (lines.drop ((max 1 a).toNat - 1)).take
          ((min (lines.length : Int) b - (max 1 a - 1)).toNat)) ∧
    (∀ lines : List (List Char), readSelected lines none = lines) ∧
    readFile "a\nb\nc\nd\ne".toList (some (0, 10000)) =
      .ok "1: a\n2: b\n3: c\n4: d\n5: e" ∧
    readFile "a\nb\nc\nd\ne".toList (some (3, 4)) = .ok "3: c\n4: d" ∧
    readFile "a\nb\nc\nd\ne".toList none =
      .ok "1: a\n2: b\n3: c\n4: d\n5: e" := by
  refine ⟨?_, ?_, by rfl, by rfl, by rfl⟩
  · intro lines a b hb
    simp only [readSelected, readStartLine, readEndLine, jsSlice]
    have hlen0 : (0 : Int) ≤ (lines.length : Int) := Int.natCast_nonneg _
    have h1 : ¬ (max 1 a - 1 < 0) := by omega
    have h2 : ¬ (min (lines.length : Int) b < 0) := not_lt.mpr (le_min hlen0 hb)
    rw [if_neg h1, if_neg h2,
      min_eq_left (min_le_left (lines.length : Int) b)]
    rcases le_or_lt (max 1 a - 1) (lines.length : Int) with hs | hs
    · have hidx : (max 1 a - 1).toNat = (max 1 a).toNat - 1 := by omega
      rw [min_eq_left hs, hidx]
    · rw [min_eq_right (le_of_lt hs)]
      have hdrop1 : lines.drop ((lines.length : Int)).toNat = [] := by
        simp
      have hdrop2 : lines.drop ((max 1 a).toNat - 1) = [] := by
        apply List.drop_eq_nil_of_le
        omega
      rw [hdrop1, hdrop2, List.take_nil, List.take_nil]
  · intro lines
    simp only [readSelected, readStartLine, readEndLine, jsSlice]
    have hlen0 : (0 : Int) ≤ (lines.length : Int) := Int.natCast_nonneg _
    have e1 : ((1 : Int) - 1) = 0 := by norm_num
    rw [e1, if_neg (lt_irrefl (0 : Int)), if_neg (not_lt.mpr hlen0),
      min_eq_left hlen0, min_self]
    simp

/-- Witness for C5 at a concrete input: the clamped-selection equation
applied to a 2-line file with the over-wide range `[0, 10000]`. -/
theorem readFile_range_clamping_witness :
    (0 : Int) ≤ 10000 ∧
    readSelected ["a".toList, "b".toList] (some (0, 10000)) =
      (["a".toList, "b".toList].drop ((max 1 (0 : Int)).toNat - 1)).take
        ((min ((["a".toList, "b".toList].length : Int)) 10000 -
          (max 1 (0 : Int) - 1)).toNat) :=
  ⟨by decide, readFile_range_clamping.1 ["a".toList, "b".toList] 0 10000 (by decide)⟩

/-! ## C6 — read-file 128 KiB size cap -/

/-- The UTF-8 size of a run of `n` copies of `'a'` is `n` bytes. -/
theorem utf8Len_replicate_a (n : Nat) : utf8Len (List.replicate n 'a') = n := by
  induction n with
  | zero => rfl
  | succ n ih =>
    rw [List.replicate_succ]
    simp only [utf8Len, ih]
    have h1 : 'a'.utf8Size = 1 := by decide
    omega

/-- Joining a one-line list with newline separators is the line itself. -/
theorem intercalate_singleton (l : List Char) :
    List.intercalate ['\n'] [l] = l := by
  simp [List.intercalate]

/-- C6: if the selected slice's UTF-8 byte size strictly exceeds 128 KiB,
`readFile` fails with a size-exceeded error whose message reports the file's
total line count, and it never returns truncated content (a success returns
the full numbered selection); a slice of exactly 128 KiB succeeds and a slice
of 128 KiB + 1 bytes fails. -/
theorem readFile_size_cap :
    (∀ (lines : List (List Char)) (read_range : Option (Int × Int))
        (e : String),
      readFileFromLines lines read_range = .error e →
      128 * 1024 <
        utf8Len (List.intercalate ['\n'] (readSelected lines read_range)) ∧
      e = tooLargeMessage
        (utf8Len (List.intercalate ['\n'] (readSelected lines read_range)))
        lines.length ∧
      ∃ pre post, e = pre ++ toString lines.length ++ post) ∧
    (∀ (lines : List (List Char)) (read_range : Option (Int × Int))
        (out : String),
      readFileFromLines lines read_range = .ok out →
      utf8Len (List.intercalate ['\n'] (readSelected lines read_range)) ≤
        128 * 1024 ∧
      out = numberLines (readStartLine read_range)
        (readSelected lines read_range)) ∧
    readFileFromLines [List.replicate (128 * 1024) 'a'] none =
      .ok ("1: " ++ String.mk (List.replicate (128 * 1024) 'a')) ∧
    readFileFromLines [List.replicate (128 * 1024 + 1) 'a'] none =
      .error ("File is too large (128KB). The file has 1 lines. " ++
        "Please retry with a smaller read_range parameter.") := by
  refine ⟨?_, ?_, ?_, ?_⟩
  · intro lines read_range e h
    simp only [readFileFromLines] at h
    split at h
    · next hc =>
      injection h with he
      subst he
      refine ⟨hc, rfl, "File is too large (" ++
        toString ((utf8Len (List.intercalate ['\n']
          (readSelected lines read_range)) + 512) / 1024) ++
        "KB). The file has ", " lines. Please retry with a smaller " ++
        "read_range parameter.", ?_⟩
      simp only [tooLargeMessage, String.append_assoc]
      rfl
    · exact absurd h (by simp)
  · intro lines read_range out h
    simp only [readFileFromLines] at h
    split at h
    · exact absurd h (by simp)
    · next hc =>
      injection h with ho
      exact ⟨not_lt.mp hc, ho.symm⟩
  · have hsize : utf8Len (List.intercalate ['\n']
        (readSelected [List.replicate (128 * 1024) 'a'] none)) = 128 * 1024 := by
      rw [show readSelected [List.replicate (128 * 1024) 'a'] none =
        [List.replicate (128 * 1024) 'a'] from rfl,
        intercalate_singleton, utf8Len_replicate_a]
    simp only [readFileFromLines, hsize]
    rw [if_neg (lt_irrefl (128 * 1024))]
    rfl
  · have hsize : utf8Len (List.intercalate ['\n']
        (readSelected [List.replicate (128 * 1024 + 1) 'a'] none)) =
          128 * 1024 + 1 := by
      rw [show readSelected [List.replicate (128 * 1024 + 1) 'a'] none =
        [List.replicate (128 * 1024 + 1) 'a'] from rfl,
        intercalate_singleton, utf8Len_replicate_a]
    simp only [readFileFromLines, hsize]
    rw [if_pos (by norm_num)]
    rfl

/-- Witness for C6 at a concrete input: a tiny one-line file is under the
cap and is returned as its numbered selection. -/
theorem readFile_size_cap_witness :
    utf8Len (List.intercalate ['\n'] (readSelected [['x']] none)) ≤
      128 * 1024 ∧
    "1: x" = numberLines (readStartLine none) (readSelected [['x']] none) :=
  readFile_size_cap.2.1 [['x']] none "1: x" rfl

/-! ## C7 — search grouping, fragment truncation, page-local total -/

/-- Trimming a run of a non-whitespace character leaves it unchanged. -/
theorem jsTrim_replicate (n : Nat) (c : Char) (h : c.isWhitespace = false) :
    jsTrim (List.replicate n c) = List.replicate n c := by
  cases n with
  | zero => rfl
  | succ n =>
    unfold jsTrim
    rw [List.replicate_succ, List.dropWhile_cons, if_neg (by simp [h]),
      ← List.replicate_succ, List.reverse_replicate, List.replicate_succ,
      List.dropWhile_cons, if_neg (by simp [h]), ← List.replicate_succ,
      List.reverse_replicate]

/-- C7: `searchCode` groups raw items by absolute file path in order of first
appearance (two matches sharing a file path give one grouped result with two
chunks in their original order); each chunk is the fragment trimmed of
surrounding whitespace and, beyond 2048 characters, truncated to its first
2048 characters with the truncation marker appended; `totalCount` equals the
raw item count of the single page received. -/
theorem searchCode_grouping :
    (∀ (projectPath : String) (data : List GitLabSearchItem),
      (searchCodeProcess projectPath data).totalCount = data.length) ∧
    (∀ d : List Char, 2048 < (jsTrim d).length →
      processFragment d = (jsTrim d).take 2048 ++ truncMarker) ∧
    (∀ d : List Char, (jsTrim d).length ≤ 2048 →
      processFragment d = jsTrim d) ∧
    searchCodeProcess "p"
      [⟨"x", "x", "main", 1, 7, "one".toList⟩,
       ⟨"y", "y", "main", 4, 7, "three".toList⟩,
       ⟨"x", "x", "main", 9, 7, " two ".toList⟩] =
      ⟨[⟨"/p/x", ["one", "two"]⟩, ⟨"/p/y", ["three"]⟩], 3⟩ := by
  refine ⟨?_, ?_, ?_, by decide⟩
  · intro projectPath data
    unfold searchCodeProcess
    split
    · next h => exact h.symm
    · rfl
  · intro d h
    unfold processFragment
    rw [if_pos h]
  · intro d h
    unfold processFragment
    rw [if_neg (not_lt.mpr h)]

/-- Witness for C7 at a concrete input: a 2049-character fragment is
truncated to 2048 characters plus the marker. -/
theorem searchCode_grouping_witness :
    2048 < (jsTrim (List.replicate 2049 'b')).length ∧
    processFragment (List.replicate 2049 'b') =
      (jsTrim (List.replicate 2049 'b')).take 2048 ++ truncMarker := by
  have hlen : 2048 < (jsTrim (List.replicate 2049 'b')).length := by
    rw [jsTrim_replicate 2049 'b' (by decide), List.length_replicate]
    norm_num
  exact ⟨hlen, searchCode_grouping.2.1 (List.replicate 2049 'b') hlen⟩

/-! ## C8 — glob matching, then slicing over the matched set, then rooting -/

/-- C8: `globFiles` applies glob matching (POSIX-style: `*` within a
segment, `**` across segments) to each full relative path, then the
offset/limit slice over the matched set only, and roots each result at
`/{projectReference}/`: pattern `**/*.ts` over `{a/b.ts, a/b.js, b.ts}`
matches exactly `{a/b.ts, b.ts}`, and limit 1 with offset 1 over that
2-element match set returns only the second match. -/
theorem globFiles_filter_slice_root :
    (["a/b.ts", "a/b.js", "b.ts"].filter fun p =>
        globMatch "**/*.ts".toList p.toList) = ["a/b.ts", "b.ts"] ∧
    globPostProcess "p" "**/*.ts" 100 0 ["a/b.ts", "a/b.js", "b.ts"] =
      ["/p/a/b.ts", "/p/b.ts"] ∧
    globPostProcess "p" "**/*.ts" 1 1 ["a/b.ts", "a/b.js", "b.ts"] =
      ["/p/b.ts"] ∧
    (∀ (projectPath filePattern : String) (limit offset : Int)
        (allFiles : List String),
      globPostProcess projectPath filePattern limit offset allFiles =
        (if limit != 0 then
          jsSlice (allFiles.filter fun p =>
            globMatch filePattern.toList p.toList) offset (offset + limit)
         else
          jsSliceFrom (allFiles.filter fun p =>
            globMatch filePattern.toList p.toList) offset).map
          fun path => "/" ++ projectPath ++ "/" ++ path) :=
  ⟨by decide, by decide, by decide, fun _ _ _ _ _ => rfl⟩

/-! ## C9 — directory listing: trailing slash, directories first,
lexicographic within groups -/

/-- The lexicographic order on character lists is total. -/
theorem lexLE_total (a b : List Char) :
    lexLE a b = true ∨ lexLE b a = true := by
  induction a generalizing b with
  | nil => exact Or.inl rfl
  | cons x xs ih =>
    cases b with
    | nil => exact Or.inr rfl
    | cons y ys =>
      by_cases hxy : x = y
      · subst hxy
        rcases ih ys with h | h
        · exact Or.inl (by simpa [lexLE] using h)
        · exact Or.inr (by simpa [lexLE] using h)
      · rcases lt_or_gt_of_ne hxy with hlt | hgt
        · exact Or.inl (by simp [lexLE, hxy, hlt])
        · exact Or.inr (by simp [lexLE, Ne.symm hxy, hgt])

/-- The lexicographic order on character lists is transitive. -/
theorem lexLE_trans (a b c : List Char) (hab : lexLE a b = true)
    (hbc : lexLE b c = true) : lexLE a c = true := by
  induction a generalizing b c with
  | nil => rfl
  | cons x xs ih =>
    cases b with
    | nil => simp [lexLE] at hab
    | cons y ys =>
      cases c with
      | nil => simp [lexLE] at hbc
      | cons z zs =>
        by_cases hxy : x = y
        · subst hxy
          by_cases hyz : x = z
          · subst hyz
            simp only [lexLE, if_pos rfl] at hab hbc ⊢
            exact ih ys zs hab hbc
          · simp only [lexLE, if_neg hyz] at hbc ⊢
            exact hbc
        · by_cases hyz : y = z
          · subst hyz
            simp only [lexLE, if_neg hxy] at hab ⊢
            exact hab
          · simp [lexLE, hxy] at hab
            simp [lexLE, hyz] at hbc
            have hxz : x < z := lt_trans hab hbc
            simp [lexLE, ne_of_lt hxz, hxz]

/-- The `listDirectory` comparator is total. -/
theorem dirEntryLE_total (a b : String) :
    dirEntryLE a b = true ∨ dirEntryLE b a = true := by
  by_cases ha : isDirEntry a = true <;> by_cases hb : isDirEntry b = true
  · simp [dirEntryLE, ha, hb]
    exact lexLE_total _ _
  · simp [dirEntryLE, ha, hb]
  · simp [dirEntryLE, ha, hb]
  · simp [dirEntryLE, ha, hb]
    exact lexLE_total _ _

/-- The `listDirectory` comparator is transitive. -/
theorem dirEntryLE_trans (a b c : String) (hab : dirEntryLE a b = true)
    (hbc : dirEntryLE b c = true) : dirEntryLE a c = true := by
  by_cases ha : isDirEntry a = true <;> by_cases hb : isDirEntry b = true <;>
    by_cases hc : isDirEntry c = true <;>
    simp [dirEntryLE, ha, hb, hc] at hab hbc ⊢ <;>
    exact lexLE_trans _ _ _ hab hbc

/-- C9: `listDirectory` appends a trailing slash to each directory-type
entry and returns the entries sorted with all directories before all files
and, within each group, in lexicographic order by display name: the output
is a permutation of the formatted entries, pairwise ordered by the
comparator (hence every directory precedes every file), and
`{z.txt, a/(dir), m.txt}` sorts to `[a/, m.txt, z.txt]`. -/
theorem listDirectory_sort :
    (∀ data : List DirTreeItem,
      (listDirectoryProcess data).Perm (data.map formatEntry)) ∧
    (∀ data : List DirTreeItem,
      List.Pairwise dirEntryRel (listDirectoryProcess data)) ∧
    (∀ data : List DirTreeItem,
      List.Pairwise (fun x y => isDirEntry y = true → isDirEntry x = true)
        (listDirectoryProcess data)) ∧
    listDirectoryProcess
      [⟨"z.txt", "z.txt", .blob⟩, ⟨"a", "a", .tree⟩,
       ⟨"m.txt", "m.txt", .blob⟩] = ["a/", "m.txt", "z.txt"] := by
  haveI htotal : IsTotal String dirEntryRel := ⟨dirEntryLE_total⟩
  haveI htrans : IsTrans String dirEntryRel :=
    ⟨fun a b c => dirEntryLE_trans a b c⟩
  refine ⟨?_, ?_, ?_, by decide⟩
  · intro data
    exact List.perm_insertionSort dirEntryRel _
  · intro data
    exact List.sorted_insertionSort dirEntryRel _
  · intro data
    refine List.Pairwise.imp ?_
      (List.sorted_insertionSort dirEntryRel (data.map formatEntry))
    intro x y hxy hyd
    by_contra hx
    have hx' : isDirEntry x = false := by
      revert hx
      cases isDirEntry x <;> simp
    simp [dirEntryRel, dirEntryLE, hx', hyd] at hxy

/-! ## C10 — a limit of 0 is falsy and does not cap the result -/

/-- C10 counterexample: the claim's parenthetical "for every other limit
value, at most `limit` entries are returned" fails at `limit = -1`, where
the slice end becomes a from-the-end index and two entries come back. -/
theorem glob_limit_cap_counterexample :
    globPostProcess "p" "*.ts" (-1) 0 ["a.ts", "b.ts", "c.ts"] =
      ["/p/a.ts", "/p/b.ts"] ∧
    ¬ (((globPostProcess "p" "*.ts" (-1) 0
          ["a.ts", "b.ts", "c.ts"]).length : Int) ≤ -1) :=
  ⟨by decide, by decide⟩

/-- A two-ended slice of width `limit` returns at most `limit` elements. -/
theorem jsSlice_length_le (l : List α) (a limit : Int) (h : 0 ≤ limit) :
    ((jsSlice l a (a + limit)).length : Int) ≤ limit := by
  unfold jsSlice
  split_ifs <;> (simp only [List.length_take, List.length_drop]; omega)

/-- C10 (amended): with an explicit limit of 0 the limit is falsy and the
result is not capped — every matched path from the offset onward is
returned; for every positive limit, at most `limit` entries are returned
(a negative limit instead acts as a from-the-end slice bound). -/
theorem glob_limit_zero_uncapped :
    (∀ (projectPath filePattern : String) (offset : Int)
        (allFiles : List String),
      globPostProcess projectPath filePattern 0 offset allFiles =
        (jsSliceFrom (allFiles.filter fun p =>
          globMatch filePattern.toList p.toList) offset).map
          fun path => "/" ++ projectPath ++ "/" ++ path) ∧
    globPostProcess "p" "*.ts" 0 1 ["a.ts", "b.ts", "c.ts"] =
      ["/p/b.ts", "/p/c.ts"] ∧
    ¬ ((globPostProcess "p" "*.ts" 0 1 ["a.ts", "b.ts", "c.ts"]).length ≤ 0) ∧
    (∀ (projectPath filePattern : String) (limit offset : Int)
        (allFiles : List String), 0 < limit →
      ((globPostProcess projectPath filePattern limit offset
          allFiles).length : Int) ≤ limit) := by
  refine ⟨fun _ _ _ _ => rfl, by decide, by decide, ?_⟩
  intro projectPath filePattern limit offset allFiles hl
  have hne : (limit != 0) = true := by
    simp only [bne_iff_ne, ne_eq]
    omega
  simp only [globPostProcess]
  rw [if_pos hne, List.length_map]
  exact jsSlice_length_le _ offset limit (le_of_lt hl)

/-- Witness for C10 (amended) at a concrete input: limit 1 returns at most
one entry. -/
theorem glob_limit_zero_uncapped_witness :
    (0 : Int) < 1 ∧
    ((globPostProcess "p" "*.ts" 1 0 ["a.ts", "b.ts"]).length : Int) ≤ 1 :=
  ⟨by decide,
   glob_limit_zero_uncapped.2.2.2 "p" "*.ts" 1 0 ["a.ts", "b.ts"] (by decide)⟩

end GitlabMcp
